import Mathlib

/-!
Verification development for the 3D coupled-PDE solver
(`coupling_simulation.py`): a leapfrog integrator over a 3D grid with a
Ricci-like curvature coupling, a periodic driving source, damping, an
elementwise amplitude clamp and a divergence early-stop, together with a
parameter sweep applying a stateful save/skip decision.

Embedding conventions:
* numpy float64 scalars are modelled by exact rationals (`ℚ`); the only
  float-specific behaviours the claims depend on (NaN / ±∞ propagation
  through `np.clip` and `np.isfinite`) are modelled separately by the
  extended-value type `FVal` below;
* `np.cos` and `np.sin` are transcendental, hence taken as parameters
  (`cosFn`, `sinFn : ℚ → ℚ`) of the definitions that use them;
* the numpy global random generator is modelled by an abstract state
  machine `RNGModel` (a state type with `seed` and `rand` operations),
  matching the `np.random.seed(42)` / `np.random.rand(...)` calls;
* 3D arrays are total functions on `Fin nx × Fin ny × Fin nz`; the
  per-step metric arrays (preallocated with `np.zeros(time_steps)` and
  written in place) are Lean lists updated with `List.set`;
* plotting, GIF capture, logging and directory creation are pure I/O
  sinks with no influence on the numeric trajectory; they are not
  modelled, except that the save/skip *decision* of the sweep is recorded
  as a `saved` flag on each summary entry.
-/

namespace CouplingSim

/-- Model of the run configuration class `CoupledParams3D`
(`coupling_simulation.py`, lines 42-103).  The Python constructor merely
stores its arguments; `output_dir` (an I/O-only string) is omitted. -/
structure CoupledParams3D where
  alpha : ℚ
  beta : ℚ
  c : ℚ
  omega : ℚ
  nx : ℕ
  ny : ℕ
  nz : ℕ
  dx : ℚ
  dy : ℚ
  dz : ℚ
  dt : ℚ
  time_steps : ℕ
  mass : ℚ
  damping : ℚ
  realtime_interval : ℕ
  enable_realtime_plotting : Bool
  random_init : Bool

/-- A 3D array over the grid, as a total function (row-major `np.ndarray`
of shape `(nx, ny, nz)`). -/
def Field (nx ny nz : ℕ) : Type := Fin nx → Fin ny → Fin nz → ℚ

/-- Model of `np.linspace a b n` (with the default `endpoint=True`):
`n` evenly spaced samples from `a` to `b`; for `n = 1` numpy returns the
single sample `a`. -/
def linspace (a b : ℚ) (n : ℕ) (i : Fin n) : ℚ :=
  if n = 1 then a else a + (i.val : ℚ) * (b - a) / ((n : ℚ) - 1)

/-- The x-axis coordinate samples used by `define_ricci_3d`
(line 114): `np.linspace(-nx/2, nx/2, nx)`. -/
def xcoord (p : CoupledParams3D) (i : Fin p.nx) : ℚ :=
  linspace (-(p.nx : ℚ) / 2) ((p.nx : ℚ) / 2) p.nx i

/-- The y-axis coordinate samples used by `define_ricci_3d` (line 115). -/
def ycoord (p : CoupledParams3D) (j : Fin p.ny) : ℚ :=
  linspace (-(p.ny : ℚ) / 2) ((p.ny : ℚ) / 2) p.ny j

/-- The z-axis coordinate samples used by `define_ricci_3d` (line 116). -/
def zcoord (p : CoupledParams3D) (k : Fin p.nz) : ℚ :=
  linspace (-(p.nz : ℚ) / 2) ((p.nz : ℚ) / 2) p.nz k

/-- Model of `define_ricci_3d` (lines 109-124):
`R = mass / (r2 + smoothing) * 1e-6` with `smoothing = 1e3` and
`r2 = X**2 + Y**2 + Z**2` over an `indexing='ij'` meshgrid of the three
`linspace` coordinate axes. -/
def define_ricci_3d (p : CoupledParams3D) : Field p.nx p.ny p.nz :=
  fun i j k =>
    p.mass / ((xcoord p i) ^ 2 + (ycoord p j) ^ 2 + (zcoord p k) ^ 2 + 1000)
      * (1 / 1000000)

/-- Model of `laplacian_3d` (lines 155-168).  `d2E` starts as
`np.zeros_like(E)` and receives three slice-wise `+=` updates: the
x-difference on `d2E[1:-1, :, :]`, the y-difference on `d2E[:, 1:-1, :]`
and the z-difference on `d2E[:, :, 1:-1]`.  Hence each cell receives the
central difference along exactly those axes on which its index is
strictly interior. -/
def laplacian_3d {nx ny nz : ℕ} (E : Field nx ny nz) (dx dy dz : ℚ) :
    Field nx ny nz :=
  fun i j k =>
    (if h : 0 < i.val ∧ i.val + 1 < nx then
      (E ⟨i.val + 1, h.2⟩ j k - 2 * E i j k
        + E ⟨i.val - 1, Nat.lt_of_le_of_lt (Nat.sub_le _ _) i.isLt⟩ j k) / dx ^ 2
    else 0)
    + (if h : 0 < j.val ∧ j.val + 1 < ny then
      (E i ⟨j.val + 1, h.2⟩ k - 2 * E i j k
        + E i ⟨j.val - 1, Nat.lt_of_le_of_lt (Nat.sub_le _ _) j.isLt⟩ k) / dy ^ 2
    else 0)
    + (if h : 0 < k.val ∧ k.val + 1 < nz then
      (E i j ⟨k.val + 1, h.2⟩ - 2 * E i j k
        + E i j ⟨k.val - 1, Nat.lt_of_le_of_lt (Nat.sub_le _ _) k.isLt⟩) / dz ^ 2
    else 0)

/-- Model of `np.clip(x, lo, hi)` on ordinary (finite) values:
`np.minimum(hi, np.maximum(x, lo))`. -/
def npClip (x lo hi : ℚ) : ℚ := min hi (max x lo)

/-- Abstract model of the numpy global random generator: a state type
with the two operations the source uses, `np.random.seed` (line 139) and
drawing one uniform sample (`np.random.rand` draws `nx*ny*nz` of them,
line 140). -/
structure RNGModel where
  St : Type
  seed : ℕ → St
  rand : St → ℚ × St

/-- Draw `n` consecutive samples from the generator, returning them in
order together with the final state (C-order flattening of
`np.random.rand(nx, ny, nz)`). -/
def randN (M : RNGModel) : ℕ → M.St → List ℚ × M.St
  | 0, s => ([], s)
  | n + 1, s =>
    let d := M.rand s
    let rest := randN M n d.2
    (d.1 :: rest.1, rest.2)

/-- The float64 value of `np.pi`, which is exactly this rational. -/
def npPi : ℚ := 884279719003555 / 281474976710656

/-- Row-major (C-order) flat index of cell `(i, j, k)` in an array of
shape `(nx, ny, nz)`. -/
def flatIdx (ny nz i j k : ℕ) : ℕ := (i * ny + j) * nz + k

/-- Model of `initialize_field_3d` (lines 130-149).  With
`random_init = True` it reseeds the global generator with the fixed seed
42 and draws `1e-10 * (np.random.rand(nx,ny,nz) - 0.5)`; otherwise it
evaluates `1e-10 * sin(x)*sin(y)*sin(z)` over `[0, π]`-linspaces.  It
returns `(E_init, E_prev, post-draw RNG state)` with
`E_prev = E_init.copy()`. -/
def initialize_field_3d (M : RNGModel) (sinFn : ℚ → ℚ) (p : CoupledParams3D)
    (st : M.St) : Field p.nx p.ny p.nz × Field p.nx p.ny p.nz × M.St :=
  if p.random_init then
    let s1 := M.seed 42
    let draw := randN M (p.nx * p.ny * p.nz) s1
    let E : Field p.nx p.ny p.nz := fun i j k =>
      (1 / 10000000000 : ℚ)
        * (draw.1.getD (flatIdx p.ny p.nz i.val j.val k.val) 0 - 1 / 2)
    (E, E, draw.2)
  else
    let E : Field p.nx p.ny p.nz := fun i j k =>
      (1 / 10000000000 : ℚ) * sinFn (linspace 0 npPi p.nx i)
        * sinFn (linspace 0 npPi p.ny j) * sinFn (linspace 0 npPi p.nz k)
    (E, E, st)

/-- One leapfrog update of the field (loop body lines 225-234): source
term, Laplacian, PDE term, candidate `2*E - E_prev + dt^2 * PDE_term`,
damping multiplication, then the elementwise clamp to `[-1e5, 1e5]`. -/
def stepField (p : CoupledParams3D) (cosFn : ℚ → ℚ)
    (R : Field p.nx p.ny p.nz) (t : ℕ) (E Eprev : Field p.nx p.ny p.nz) :
    Field p.nx p.ny p.nz :=
  let dt2 := p.dt ^ 2
  let c2 := p.c ^ 2
  let alpha_c2 := p.alpha * c2
  let source_val := p.beta * cosFn (p.omega * p.dt * (t : ℚ))
  let lapl := laplacian_3d E p.dx p.dy p.dz
  fun i j k =>
    let PDE_term := c2 * lapl i j k - alpha_c2 * (R i j k * E i j k)
      + c2 * source_val
    let E_new := 2 * E i j k - Eprev i j k + dt2 * PDE_term
    npClip (p.damping * E_new) (-100000) 100000

/-- All cells of an `(nx, ny, nz)` grid, in row-major order. -/
def cellList (nx ny nz : ℕ) : List (Fin nx × Fin ny × Fin nz) :=
  (List.finRange nx).flatMap fun i =>
    (List.finRange ny).flatMap fun j =>
      (List.finRange nz).map fun k => (i, j, k)

/-- Model of `np.max(np.abs(E))` (line 246), as a fold with neutral
element 0 (all folded values are absolute values, hence nonnegative). -/
def maxAbs {nx ny nz : ℕ} (E : Field nx ny nz) : ℚ :=
  ((cellList nx ny nz).map fun c => |E c.1 c.2.1 c.2.2|).foldr max 0

/-- Model of `0.5 * np.sum(E**2)` (line 247). -/
def energyOf {nx ny nz : ℕ} (E : Field nx ny nz) : ℚ :=
  (1 / 2) * ((cellList nx ny nz).map fun c => E c.1 c.2.1 c.2.2 ^ 2).sum

/-- The integrator state: the two field time-levels plus the two
preallocated metric arrays (`np.zeros(time_steps)` each, lines 198-199),
written in place at index `t` each completed step. -/
structure SimState (nx ny nz : ℕ) where
  E : Field nx ny nz
  Eprev : Field nx ny nz
  max_amplitudes : List ℚ
  energy_over_time : List ℚ

/-- One iteration of the PDE loop (lines 223-247) in the exact-rational
model: compute the new field, shift the time levels, and record both
metrics of the *new* field at index `t`.  In exact rational arithmetic
every value is finite, so the `np.isfinite` early-stop (line 237) can
never fire; that branch is modelled faithfully on the extended-value
type `FVal` below (`fstepSim`). -/
def stepSim (p : CoupledParams3D) (cosFn : ℚ → ℚ)
    (R : Field p.nx p.ny p.nz) (s : SimState p.nx p.ny p.nz) (t : ℕ) :
    SimState p.nx p.ny p.nz :=
  let E_new := stepField p cosFn R t s.E s.Eprev
  { E := E_new
    Eprev := s.E
    max_amplitudes := s.max_amplitudes.set t (maxAbs E_new)
    energy_over_time := s.energy_over_time.set t (energyOf E_new) }

/-- The integrator state reached after the first `t` iterations of
`run_single_sim_realtime` (lines 188-247): curvature field and initial
fields built once, then the loop body folded over steps `0, …, t-1`. -/
def simStateAfter (M : RNGModel) (sinFn cosFn : ℚ → ℚ)
    (p : CoupledParams3D) (st : M.St) (t : ℕ) : SimState p.nx p.ny p.nz :=
  let R := define_ricci_3d p
  let ini := initialize_field_3d M sinFn p st
  (List.range t).foldl (stepSim p cosFn R)
    { E := ini.1
      Eprev := ini.2.1
      max_amplitudes := List.replicate p.time_steps 0
      energy_over_time := List.replicate p.time_steps 0 }

/-- Model of `run_single_sim_realtime` (lines 174-281): the state after
all `time_steps` iterations.  The real-time plotting, GIF capture and
progress bar are I/O sinks with no effect on the returned arrays. -/
def run_single_sim_realtime (M : RNGModel) (sinFn cosFn : ℚ → ℚ)
    (p : CoupledParams3D) (st : M.St) : SimState p.nx p.ny p.nz :=
  simStateAfter M sinFn cosFn p st p.time_steps

/-- The per-run parameter set built by the sweep (lines 316-330): the
swept `(alpha, beta)` pair substituted, every other field copied from
the base parameters. -/
def mkSimParams (base : CoupledParams3D) (a b : ℚ) : CoupledParams3D :=
  { alpha := a
    beta := b
    c := base.c
    omega := base.omega
    nx := base.nx
    ny := base.ny
    nz := base.nz
    dx := base.dx
    dy := base.dy
    dz := base.dz
    dt := base.dt
    time_steps := base.time_steps
    mass := base.mass
    damping := base.damping
    realtime_interval := base.realtime_interval
    enable_realtime_plotting := base.enable_realtime_plotting
    random_init := base.random_init }

/-- One entry of the sweep summary (line 412): `(alpha, beta,
final_maxE, last_amp)`, extended with the save/skip decision `saved`
(the observable side effect of lines 344-410, which the code performs as
plot-file writes). -/
structure SweepEntry where
  alpha : ℚ
  beta : ℚ
  final_maxE : ℚ
  last_amp : Option ℚ
  saved : Bool

/-- The save decision (lines 344-350): save if no run has been saved yet
(`last_saved_amp is None`), or if
`abs(final_maxE - last_saved_amp) / max(last_saved_amp, 1e-30)` exceeds
`save_threshold`. -/
def shouldSave (last_saved_amp : Option ℚ) (final_maxE save_threshold : ℚ) :
    Bool :=
  match last_saved_amp with
  | none => true
  | some l => decide (|final_maxE - l| / max l (1 / 10 ^ 30) > save_threshold)

/-- Body of the sweep's double loop for one `(alpha, beta)` pair
(lines 309-412): build fresh parameters, run the simulation, compute
`final_maxE = np.max(np.abs(final_E))` and
`last_amp = max_amps[-1] if len(max_amps) else None`, decide the save,
update `last_saved_amp` only on a save, and append the summary entry
unconditionally. -/
def sweepBody (M : RNGModel) (sinFn cosFn : ℚ → ℚ)
    (base : CoupledParams3D) (save_threshold : ℚ) (st : M.St)
    (acc : Option ℚ × List SweepEntry) (ab : ℚ × ℚ) :
    Option ℚ × List SweepEntry :=
  let sim_params := mkSimParams base ab.1 ab.2
  let res := run_single_sim_realtime M sinFn cosFn sim_params st
  let final_maxE := maxAbs res.E
  let last_amp := res.max_amplitudes.getLast?
  let save := shouldSave acc.1 final_maxE save_threshold
  (if save then some final_maxE else acc.1,
   acc.2 ++ [⟨ab.1, ab.2, final_maxE, last_amp, save⟩])

/-- The `(alpha, beta)` pairs in iteration order: outer loop over
`alpha_list`, inner loop over `beta_list` (lines 309-310). -/
def pairList (alpha_list beta_list : List ℚ) : List (ℚ × ℚ) :=
  alpha_list.flatMap fun a => beta_list.map fun b => (a, b)

/-- Model of `param_sweep_3d` (lines 287-414): fold the per-pair body
over the pairs in iteration order, starting from `last_saved_amp = None`
and an empty summary; returns the final `last_saved_amp` and the
summary list. -/
def param_sweep_3d (M : RNGModel) (sinFn cosFn : ℚ → ℚ)
    (alpha_list beta_list : List ℚ) (base : CoupledParams3D)
    (save_threshold : ℚ) (st : M.St) : Option ℚ × List SweepEntry :=
  (pairList alpha_list beta_list).foldl
    (sweepBody M sinFn cosFn base save_threshold st) (none, [])

/-! ### Extended values: NaN and ±∞

The divergence check (lines 234-240) is the one place where float64
special values matter: `np.clip` is applied *before* `np.isfinite`.
`FVal` models a float64 scalar as either an exact finite value, `±∞`, or
NaN, with the numpy propagation rules for the operations the loop uses. -/

/-- A float64 scalar for the purposes of the divergence check: a finite
value (modelled exactly), `+∞`, `-∞`, or NaN. -/
inductive FVal where
  | finite : ℚ → FVal
  | posInf : FVal
  | negInf : FVal
  | nan : FVal
deriving DecidableEq

/-- Model of `np.isfinite` on one scalar. -/
def FVal.isFinite : FVal → Bool
  | .finite _ => true
  | _ => false

/-- Model of `np.maximum` on scalars: NaN propagates; otherwise the
larger of the two in the order `-∞ < finite < +∞`. -/
def fvMaximum : FVal → FVal → FVal
  | .nan, _ => .nan
  | _, .nan => .nan
  | .posInf, _ => .posInf
  | _, .posInf => .posInf
  | .negInf, y => y
  | x, .negInf => x
  | .finite a, .finite b => .finite (max a b)

/-- Model of `np.minimum` on scalars: NaN propagates; otherwise the
smaller of the two. -/
def fvMinimum : FVal → FVal → FVal
  | .nan, _ => .nan
  | _, .nan => .nan
  | .negInf, _ => .negInf
  | _, .negInf => .negInf
  | .posInf, y => y
  | x, .posInf => x
  | .finite a, .finite b => .finite (min a b)

/-- Model of `np.clip(x, lo, hi)` on a float64 scalar:
`np.minimum(np.maximum(x, lo), hi)`.  NaN passes through; `±∞` is mapped
to the corresponding finite bound. -/
def fvClip (x : FVal) (lo hi : ℚ) : FVal :=
  fvMinimum (fvMaximum x (.finite lo)) (.finite hi)

/-- Model of `np.abs` on a float64 scalar. -/
def fvAbs : FVal → FVal
  | .finite a => .finite |a|
  | .posInf => .posInf
  | .negInf => .posInf
  | .nan => .nan

/-- IEEE-754 addition on `FVal` (exact in the finite case): NaN
propagates, `+∞ + -∞ = NaN`. -/
def fvAdd : FVal → FVal → FVal
  | .nan, _ => .nan
  | _, .nan => .nan
  | .posInf, .negInf => .nan
  | .negInf, .posInf => .nan
  | .posInf, _ => .posInf
  | _, .posInf => .posInf
  | .negInf, _ => .negInf
  | _, .negInf => .negInf
  | .finite a, .finite b => .finite (a + b)

/-- IEEE-754 multiplication on `FVal` (exact in the finite case): NaN
propagates, `±∞ * 0 = NaN`, otherwise the usual sign rules. -/
def fvMul : FVal → FVal → FVal
  | .nan, _ => .nan
  | _, .nan => .nan
  | .posInf, .posInf => .posInf
  | .posInf, .negInf => .negInf
  | .negInf, .posInf => .negInf
  | .negInf, .negInf => .posInf
  | .posInf, .finite b =>
    if 0 < b then .posInf else if b < 0 then .negInf else .nan
  | .finite a, .posInf =>
    if 0 < a then .posInf else if a < 0 then .negInf else .nan
  | .negInf, .finite b =>
    if 0 < b then .negInf else if b < 0 then .posInf else .nan
  | .finite a, .negInf =>
    if 0 < a then .negInf else if a < 0 then .posInf else .nan
  | .finite a, .finite b => .finite (a * b)

/-- A 3D array of float64 scalars with special values. -/
def FField (nx ny nz : ℕ) : Type := Fin nx → Fin ny → Fin nz → FVal

/-- The elementwise clamp of line 234, `np.clip(E_new, -1e5, 1e5)`, on
an extended-value field. -/
def fvClipField {nx ny nz : ℕ} (g : FField nx ny nz) : FField nx ny nz :=
  fun i j k => fvClip (g i j k) (-100000) 100000

/-- Model of `np.isfinite(E_new).all()` (line 237). -/
def fAllFinite {nx ny nz : ℕ} (g : FField nx ny nz) : Bool :=
  (cellList nx ny nz).all fun c => (g c.1 c.2.1 c.2.2).isFinite

/-- Model of `np.max(np.abs(E))` on an extended-value field. -/
def fMaxAbs {nx ny nz : ℕ} (g : FField nx ny nz) : FVal :=
  ((cellList nx ny nz).map fun c => fvAbs (g c.1 c.2.1 c.2.2)).foldr
    fvMaximum (.finite 0)

/-- Model of `0.5 * np.sum(E**2)` on an extended-value field. -/
def fEnergy {nx ny nz : ℕ} (g : FField nx ny nz) : FVal :=
  fvMul (.finite (1 / 2))
    (((cellList nx ny nz).map fun c =>
      fvMul (g c.1 c.2.1 c.2.2) (g c.1 c.2.1 c.2.2)).foldr fvAdd (.finite 0))

/-- Integrator state in the extended-value model, with the `stopped`
flag recording whether the divergence `break` (line 240) has fired. -/
structure FSimState (nx ny nz : ℕ) where
  E : FField nx ny nz
  Eprev : FField nx ny nz
  max_amplitudes : List FVal
  energy_over_time : List FVal
  stopped : Bool

/-- One iteration of the PDE loop (lines 223-247) in the extended-value
model.  `stepFn t E Eprev` stands for the candidate computation of lines
225-232 (source, Laplacian, PDE term, leapfrog combination and damping
multiplication — its exact finite-value content is `stepField` above);
it is a parameter because in exact arithmetic non-finite values never
arise, while in float64 they can.  The loop body then applies the clamp
(line 234), checks `np.isfinite(...).all()` (line 237), and either
breaks without touching the state (modelled by the `stopped` flag) or
commits the update and records the metrics. -/
def fstepSim {nx ny nz : ℕ}
    (stepFn : ℕ → FField nx ny nz → FField nx ny nz → FField nx ny nz)
    (s : FSimState nx ny nz) (t : ℕ) : FSimState nx ny nz :=
  if s.stopped then s
  else
    let E_new := fvClipField (stepFn t s.E s.Eprev)
    if fAllFinite E_new then
      { E := E_new
        Eprev := s.E
        max_amplitudes := s.max_amplitudes.set t (fMaxAbs E_new)
        energy_over_time := s.energy_over_time.set t (fEnergy E_new)
        stopped := false }
    else
      { s with stopped := true }

/-- State after the first `t` iterations of the loop in the
extended-value model (`T` is `time_steps`, fixing the length of the
preallocated metric arrays). -/
def fsimStateAfter {nx ny nz : ℕ}
    (stepFn : ℕ → FField nx ny nz → FField nx ny nz → FField nx ny nz)
    (T : ℕ) (E0 : FField nx ny nz) (t : ℕ) : FSimState nx ny nz :=
  (List.range t).foldl (fstepSim stepFn)
    { E := E0
      Eprev := E0
      max_amplitudes := List.replicate T (.finite 0)
      energy_over_time := List.replicate T (.finite 0)
      stopped := false }

/-- The full loop of `run_single_sim_realtime` in the extended-value
model: all `T` iterations (with early termination via the `stopped`
flag). -/
def runLoopF {nx ny nz : ℕ}
    (stepFn : ℕ → FField nx ny nz → FField nx ny nz → FField nx ny nz)
    (T : ℕ) (E0 : FField nx ny nz) : FSimState nx ny nz :=
  fsimStateAfter stepFn T E0 T

/-! ### Concrete instances and auxiliary definitions -/

/-- Entries of the metric arrays at indices not yet reached still hold
the preallocated default. -/
def untouchedFrom (t : ℕ) (l : List FVal) : Prop :=
  ∀ u, t ≤ u → l.getD u (.finite 0) = .finite 0

/-- A trivial RNG model whose every draw returns the constant `v`. -/
def unitRNG (v : ℚ) : RNGModel where
  St := Unit
  seed := fun _ => ()
  rand := fun _ => (v, ())

/-- The constant function, standing in for `sin` or `cos` in witnesses. -/
def constFn (v : ℚ) : ℚ → ℚ := fun _ => v

/-- A tiny concrete configuration: a 1×1×1 grid, one time step. -/
def pTiny : CoupledParams3D :=
  { alpha := 0
    beta := 0
    c := 1
    omega := 1
    nx := 1
    ny := 1
    nz := 1
    dx := 1
    dy := 1
    dz := 1
    dt := 1
    time_steps := 1
    mass := 1
    damping := 98 / 100
    realtime_interval := 50
    enable_realtime_plotting := false
    random_init := true }

/-- The unique cell index of the 1×1×1 grid, x-axis. -/
def c0x : Fin pTiny.nx := ⟨0, by decide⟩

/-- The unique cell index of the 1×1×1 grid, y-axis. -/
def c0y : Fin pTiny.ny := ⟨0, by decide⟩

/-- The unique cell index of the 1×1×1 grid, z-axis. -/
def c0z : Fin pTiny.nz := ⟨0, by decide⟩

/-- A 3×3×3 field with a single unit spike at cell `(0, 1, 1)`, which
lies on the x-boundary but is interior along y and z. -/
def Ecex : Field 3 3 3 :=
  fun i j k => if i.val = 0 ∧ j.val = 1 ∧ k.val = 1 then 1 else 0

/-- Total cell accessor used to state the amended C2: the field value
when the indices are in range, 0 otherwise. -/
def Eat {nx ny nz : ℕ} (E : Field nx ny nz) (i j k : ℕ) : ℚ :=
  if h : i < nx ∧ j < ny ∧ k < nz then E ⟨i, h.1⟩ ⟨j, h.2.1⟩ ⟨k, h.2.2⟩ else 0

/-- A field with a single unit spike at one given cell, used to show
that the per-axis Laplacian contribution is genuinely nonzero at any
cell having at least one strictly interior axis. -/
def spikeAt {nx ny nz : ℕ} (i : Fin nx) (j : Fin ny) (k : Fin nz) :
    Field nx ny nz :=
  fun a b c => if a = i ∧ b = j ∧ c = k then 1 else 0

/-- The tiny configuration with the mass parameter set to zero. -/
def pMass0 : CoupledParams3D := { pTiny with mass := 0 }

/-- A candidate computation that produces NaN everywhere (standing for
a numerically diverged float64 step). -/
def nanStep : ℕ → FField 1 1 1 → FField 1 1 1 → FField 1 1 1 :=
  fun _ _ _ => fun _ _ _ => .nan

/-- The all-zero initial extended-value field on a 1×1×1 grid. -/
def fzero : FField 1 1 1 := fun _ _ _ => .finite 0

/-- A candidate computation that produces `+∞` everywhere. -/
def infStep : ℕ → FField 1 1 1 → FField 1 1 1 → FField 1 1 1 :=
  fun _ _ _ => fun _ _ _ => .posInf

/-- The tiny configuration with the invalid (non-positive) time step
`dt = 0`. -/
def pInvalid : CoupledParams3D := { pTiny with dt := 0 }

/-- The tiny configuration with zero time steps. -/
def pZeroSteps : CoupledParams3D := { pTiny with time_steps := 0 }

/-! ### Helper lemmas -/

/-- Writing a list at one index leaves every other index unchanged
(under `getD`). -/
theorem getD_set_of_ne {α : Type} (d v : α) :
    ∀ (l : List α) (i u : ℕ), i ≠ u → (l.set i v).getD u d = l.getD u d := by
  intro l
  induction l with
  | nil => intro i u _; rfl
  | cons a l ih =>
    intro i u hne
    cases i with
    | zero =>
      cases u with
      | zero => exact absurd rfl hne
      | succ u => rfl
    | succ i =>
      cases u with
      | zero => rfl
      | succ u => exact ih i u (fun h => hne (by rw [h]))

/-- Reading a replicated list with `getD` always returns the replicated value. -/
theorem getD_replicate_self {α : Type} (x : α) :
    ∀ (n u : ℕ), (List.replicate n x).getD u x = x := by
  intro n
  induction n with
  | zero => intro u; rfl
  | succ n ih =>
    intro u
    cases u with
    | zero => rfl
    | succ u => exact ih u

/-- Setting an index of a list preserves its length (restated for direct use). -/
theorem length_set' {α : Type} (l : List α) (i : ℕ) (v : α) :
    (l.set i v).length = l.length := List.length_set l i v

/-- Every grid cell occurs in `cellList`. -/
theorem mem_cellList {nx ny nz : ℕ} (i : Fin nx) (j : Fin ny) (k : Fin nz) :
    (i, j, k) ∈ cellList nx ny nz := by
  unfold cellList
  refine List.mem_flatMap.2 ⟨i, List.mem_finRange i, ?_⟩
  refine List.mem_flatMap.2 ⟨j, List.mem_finRange j, ?_⟩
  exact List.mem_map.2 ⟨k, List.mem_finRange k, rfl⟩

/-- The clamp output is bounded by the clamp bound in absolute value. -/
theorem abs_npClip_le (x : ℚ) : |npClip x (-100000) 100000| ≤ 100000 := by
  rw [abs_le]
  constructor
  · exact le_min (by norm_num) (le_max_right x (-100000))
  · exact min_le_left _ _

/-- A fold of `max` over values bounded by a nonnegative `B` is bounded
by `B`. -/
theorem foldr_max_le (B : ℚ) (hB : 0 ≤ B) :
    ∀ l : List ℚ, (∀ x ∈ l, x ≤ B) → l.foldr max 0 ≤ B := by
  intro l
  induction l with
  | nil => intro _; simpa using hB
  | cons a l ih =>
    intro h
    simp only [List.foldr_cons]
    exact max_le (h a (by simp)) (ih fun x hx => h x (List.mem_cons_of_mem a hx))

/-- If every cell of a field is bounded by `1e5` in absolute value, so
is `maxAbs` of the field. -/
theorem maxAbs_le {nx ny nz : ℕ} (E : Field nx ny nz)
    (h : ∀ i j k, |E i j k| ≤ 100000) : maxAbs E ≤ 100000 := by
  refine foldr_max_le _ (by norm_num) _ ?_
  intro x hx
  rcases List.mem_map.1 hx with ⟨c, _, rfl⟩
  exact h c.1 c.2.1 c.2.2

/-- Unfolding one step of the exact-rational integrator. -/
theorem simStateAfter_succ (M : RNGModel) (sinFn cosFn : ℚ → ℚ)
    (p : CoupledParams3D) (st : M.St) (t : ℕ) :
    simStateAfter M sinFn cosFn p st (t + 1)
      = stepSim p cosFn (define_ricci_3d p)
          (simStateAfter M sinFn cosFn p st t) t := by
  unfold simStateAfter
  rw [List.range_succ, List.foldl_append, List.foldl_cons, List.foldl_nil]

/-- Unfolding one step of the extended-value integrator. -/
theorem fsimStateAfter_succ {nx ny nz : ℕ}
    (stepFn : ℕ → FField nx ny nz → FField nx ny nz → FField nx ny nz)
    (T : ℕ) (E0 : FField nx ny nz) (t : ℕ) :
    fsimStateAfter stepFn T E0 (t + 1)
      = fstepSim stepFn (fsimStateAfter stepFn T E0 t) t := by
  unfold fsimStateAfter
  rw [List.range_succ, List.foldl_append, List.foldl_cons, List.foldl_nil]

/-- Once the `stopped` flag is set, an iteration is a no-op. -/
theorem fstepSim_stopped {nx ny nz : ℕ}
    (stepFn : ℕ → FField nx ny nz → FField nx ny nz → FField nx ny nz)
    (s : FSimState nx ny nz) (t : ℕ) (h : s.stopped = true) :
    fstepSim stepFn s t = s := by
  simp [fstepSim, h]

/-- Once the `stopped` flag is set, the state is frozen for all later
iterations. -/
theorem fsimStateAfter_frozen {nx ny nz : ℕ}
    (stepFn : ℕ → FField nx ny nz → FField nx ny nz → FField nx ny nz)
    (T : ℕ) (E0 : FField nx ny nz) (t : ℕ)
    (h : (fsimStateAfter stepFn T E0 t).stopped = true) :
    ∀ m, fsimStateAfter stepFn T E0 (t + m) = fsimStateAfter stepFn T E0 t := by
  intro m
  induction m with
  | zero => rfl
  | succ m ih =>
    have : t + (m + 1) = (t + m) + 1 := rfl
    rw [this, fsimStateAfter_succ, ih, fstepSim_stopped _ _ _ h]

/-- After `t` iterations, both metric arrays are untouched from index
`t` onward (each completed step writes only its own index). -/
theorem untouched_after {nx ny nz : ℕ}
    (stepFn : ℕ → FField nx ny nz → FField nx ny nz → FField nx ny nz)
    (T : ℕ) (E0 : FField nx ny nz) :
    ∀ t, untouchedFrom t (fsimStateAfter stepFn T E0 t).max_amplitudes
      ∧ untouchedFrom t (fsimStateAfter stepFn T E0 t).energy_over_time := by
  intro t
  induction t with
  | zero =>
    constructor <;> exact fun u _ => getD_replicate_self _ T u
  | succ t ih =>
    rw [fsimStateAfter_succ]
    set s := fsimStateAfter stepFn T E0 t with hs
    by_cases hstop : s.stopped
    · rw [fstepSim_stopped _ _ _ hstop]
      exact ⟨fun u hu => ih.1 u (by omega), fun u hu => ih.2 u (by omega)⟩
    · simp only [fstepSim, hstop, if_false, Bool.false_eq_true]
      by_cases hfin : fAllFinite (fvClipField (stepFn t s.E s.Eprev))
      · simp only [hfin, if_true]
        constructor
        · intro u hu
          rw [getD_set_of_ne _ _ _ _ _ (by omega)]
          exact ih.1 u (by omega)
        · intro u hu
          rw [getD_set_of_ne _ _ _ _ _ (by omega)]
          exact ih.2 u (by omega)
      · simp only [hfin, if_false, Bool.false_eq_true]
        exact ⟨fun u hu => ih.1 u (by omega), fun u hu => ih.2 u (by omega)⟩

/-- All samples drawn by `randN` are within the generator's range. -/
theorem randN_mem_bounds (M : RNGModel)
    (hr : ∀ s, 0 ≤ (M.rand s).1 ∧ (M.rand s).1 ≤ 1) :
    ∀ (n : ℕ) (s : M.St) (v : ℚ), v ∈ (randN M n s).1 → 0 ≤ v ∧ v ≤ 1 := by
  intro n
  induction n with
  | zero => intro s v hv; simp [randN] at hv
  | succ n ih =>
    intro s v hv
    simp only [randN] at hv
    rcases List.mem_cons.1 hv with h | h
    · rw [h]; exact hr s
    · exact ih _ v h

/-- Reading with default `0` from a list of `[0, 1]`-values stays in
`[0, 1]`. -/
theorem getD_bounds (l : List ℚ) (h : ∀ v ∈ l, 0 ≤ v ∧ v ≤ 1) (u : ℕ) :
    0 ≤ l.getD u 0 ∧ l.getD u 0 ≤ 1 := by
  induction l generalizing u with
  | nil => cases u <;> exact ⟨le_refl 0, by norm_num⟩
  | cons a l ih =>
    cases u with
    | zero => exact h a (by simp)
    | succ u => exact ih (fun v hv => h v (List.mem_cons_of_mem a hv)) u

/-- The check `fAllFinite` holds exactly when every cell is finite. -/
theorem fAllFinite_iff {nx ny nz : ℕ} (g : FField nx ny nz) :
    fAllFinite g = true ↔ ∀ i j k, (g i j k).isFinite = true := by
  constructor
  · intro h i j k
    exact List.all_eq_true.1 h (i, j, k) (mem_cellList i j k)
  · intro h
    refine List.all_eq_true.2 fun c _ => h c.1 c.2.1 c.2.2

/-- Clamping any non-NaN scalar yields a finite scalar (in particular
`±∞` is mapped into the clamp range). -/
theorem fvClip_isFinite_of_ne_nan (x : FVal) (lo hi : ℚ) (h : x ≠ .nan) :
    (fvClip x lo hi).isFinite = true := by
  cases x with
  | finite a => simp [fvClip, fvMaximum, fvMinimum, FVal.isFinite]
  | posInf => simp [fvClip, fvMaximum, fvMinimum, FVal.isFinite]
  | negInf => simp [fvClip, fvMaximum, fvMinimum, FVal.isFinite]
  | nan => exact absurd rfl h

/-! ### Concrete instances used by witnesses -/

/-- The x-direction term of `laplacian_3d`, rewritten through the total
accessor `Eat`: the central x-difference when the x-index is strictly
interior, zero otherwise. -/
theorem lapX_char {nx ny nz : ℕ} (E : Field nx ny nz) (dx : ℚ)
    (i : Fin nx) (j : Fin ny) (k : Fin nz) :
    (if h : 0 < i.val ∧ i.val + 1 < nx then
      (E ⟨i.val + 1, h.2⟩ j k - 2 * E i j k
        + E ⟨i.val - 1, Nat.lt_of_le_of_lt (Nat.sub_le _ _) i.isLt⟩ j k) / dx ^ 2
    else 0)
    = (if 0 < i.val ∧ i.val + 1 < nx then
      (Eat E (i.val + 1) j.val k.val - 2 * Eat E i.val j.val k.val
        + Eat E (i.val - 1) j.val k.val) / dx ^ 2
    else 0) := by
  by_cases h : 0 < i.val ∧ i.val + 1 < nx
  · rw [dif_pos h, if_pos h]
    have e1 : Eat E (i.val + 1) j.val k.val = E ⟨i.val + 1, h.2⟩ j k := by
      unfold Eat; rw [dif_pos ⟨h.2, j.isLt, k.isLt⟩]
    have e2 : Eat E i.val j.val k.val = E i j k := by
      unfold Eat; rw [dif_pos ⟨i.isLt, j.isLt, k.isLt⟩]
    have e3 : Eat E (i.val - 1) j.val k.val
        = E ⟨i.val - 1, Nat.lt_of_le_of_lt (Nat.sub_le _ _) i.isLt⟩ j k := by
      unfold Eat
      rw [dif_pos ⟨Nat.lt_of_le_of_lt (Nat.sub_le _ _) i.isLt, j.isLt, k.isLt⟩]
    rw [e1, e2, e3]
  · rw [dif_neg h, if_neg h]

/-- The y-direction term of `laplacian_3d`, rewritten through `Eat`. -/
theorem lapY_char {nx ny nz : ℕ} (E : Field nx ny nz) (dy : ℚ)
    (i : Fin nx) (j : Fin ny) (k : Fin nz) :
    (if h : 0 < j.val ∧ j.val + 1 < ny then
      (E i ⟨j.val + 1, h.2⟩ k - 2 * E i j k
        + E i ⟨j.val - 1, Nat.lt_of_le_of_lt (Nat.sub_le _ _) j.isLt⟩ k) / dy ^ 2
    else 0)
    = (if 0 < j.val ∧ j.val + 1 < ny then
      (Eat E i.val (j.val + 1) k.val - 2 * Eat E i.val j.val k.val
        + Eat E i.val (j.val - 1) k.val) / dy ^ 2
    else 0) := by
  by_cases h : 0 < j.val ∧ j.val + 1 < ny
  · rw [dif_pos h, if_pos h]
    have e1 : Eat E i.val (j.val + 1) k.val = E i ⟨j.val + 1, h.2⟩ k := by
      unfold Eat; rw [dif_pos ⟨i.isLt, h.2, k.isLt⟩]
    have e2 : Eat E i.val j.val k.val = E i j k := by
      unfold Eat; rw [dif_pos ⟨i.isLt, j.isLt, k.isLt⟩]
    have e3 : Eat E i.val (j.val - 1) k.val
        = E i ⟨j.val - 1, Nat.lt_of_le_of_lt (Nat.sub_le _ _) j.isLt⟩ k := by
      unfold Eat
      rw [dif_pos ⟨i.isLt, Nat.lt_of_le_of_lt (Nat.sub_le _ _) j.isLt, k.isLt⟩]
    rw [e1, e2, e3]
  · rw [dif_neg h, if_neg h]

/-- The z-direction term of `laplacian_3d`, rewritten through `Eat`. -/
theorem lapZ_char {nx ny nz : ℕ} (E : Field nx ny nz) (dz : ℚ)
    (i : Fin nx) (j : Fin ny) (k : Fin nz) :
    (if h : 0 < k.val ∧ k.val + 1 < nz then
      (E i j ⟨k.val + 1, h.2⟩ - 2 * E i j k
        + E i j ⟨k.val - 1, Nat.lt_of_le_of_lt (Nat.sub_le _ _) k.isLt⟩) / dz ^ 2
    else 0)
    = (if 0 < k.val ∧ k.val + 1 < nz then
      (Eat E i.val j.val (k.val + 1) - 2 * Eat E i.val j.val k.val
        + Eat E i.val j.val (k.val - 1)) / dz ^ 2
    else 0) := by
  by_cases h : 0 < k.val ∧ k.val + 1 < nz
  · rw [dif_pos h, if_pos h]
    have e1 : Eat E i.val j.val (k.val + 1) = E i j ⟨k.val + 1, h.2⟩ := by
      unfold Eat; rw [dif_pos ⟨i.isLt, j.isLt, h.2⟩]
    have e2 : Eat E i.val j.val k.val = E i j k := by
      unfold Eat; rw [dif_pos ⟨i.isLt, j.isLt, k.isLt⟩]
    have e3 : Eat E i.val j.val (k.val - 1)
        = E i j ⟨k.val - 1, Nat.lt_of_le_of_lt (Nat.sub_le _ _) k.isLt⟩ := by
      unfold Eat
      rw [dif_pos ⟨i.isLt, j.isLt, Nat.lt_of_le_of_lt (Nat.sub_le _ _) k.isLt⟩]
    rw [e1, e2, e3]
  · rw [dif_neg h, if_neg h]

/-- The full `laplacian_3d`, characterized cell by cell through `Eat`:
every cell receives the central difference along exactly those axes on
which its index is strictly interior. -/
theorem laplacian_char {nx ny nz : ℕ} (E : Field nx ny nz)
    (dx dy dz : ℚ) (i : Fin nx) (j : Fin ny) (k : Fin nz) :
    laplacian_3d E dx dy dz i j k
      = (if 0 < i.val ∧ i.val + 1 < nx then
          (Eat E (i.val + 1) j.val k.val - 2 * Eat E i.val j.val k.val
            + Eat E (i.val - 1) j.val k.val) / dx ^ 2
        else 0)
      + (if 0 < j.val ∧ j.val + 1 < ny then
          (Eat E i.val (j.val + 1) k.val - 2 * Eat E i.val j.val k.val
            + Eat E i.val (j.val - 1) k.val) / dy ^ 2
        else 0)
      + (if 0 < k.val ∧ k.val + 1 < nz then
          (Eat E i.val j.val (k.val + 1) - 2 * Eat E i.val j.val k.val
            + Eat E i.val j.val (k.val - 1)) / dz ^ 2
        else 0) := by
  unfold laplacian_3d
  rw [lapX_char, lapY_char, lapZ_char]

/-- The spike field evaluated (through `Eat`) at its own cell. -/
theorem Eat_spike_center {nx ny nz : ℕ} (i : Fin nx) (j : Fin ny)
    (k : Fin nz) : Eat (spikeAt i j k) i.val j.val k.val = 1 := by
  unfold Eat spikeAt
  rw [dif_pos ⟨i.isLt, j.isLt, k.isLt⟩, if_pos ⟨rfl, rfl, rfl⟩]

/-- The spike field vanishes at any in-range x-offset of its cell. -/
theorem Eat_spike_off_x {nx ny nz : ℕ} (i : Fin nx) (j : Fin ny)
    (k : Fin nz) (m : ℕ) (hm : m < nx) (hne : m ≠ i.val) :
    Eat (spikeAt i j k) m j.val k.val = 0 := by
  unfold Eat spikeAt
  rw [dif_pos ⟨hm, j.isLt, k.isLt⟩,
    if_neg (fun hcon => hne (congrArg Fin.val hcon.1))]

/-- The spike field vanishes at any in-range y-offset of its cell. -/
theorem Eat_spike_off_y {nx ny nz : ℕ} (i : Fin nx) (j : Fin ny)
    (k : Fin nz) (m : ℕ) (hm : m < ny) (hne : m ≠ j.val) :
    Eat (spikeAt i j k) i.val m k.val = 0 := by
  unfold Eat spikeAt
  rw [dif_pos ⟨i.isLt, hm, k.isLt⟩,
    if_neg (fun hcon => hne (congrArg Fin.val hcon.2.1))]

/-- The spike field vanishes at any in-range z-offset of its cell. -/
theorem Eat_spike_off_z {nx ny nz : ℕ} (i : Fin nx) (j : Fin ny)
    (k : Fin nz) (m : ℕ) (hm : m < nz) (hne : m ≠ k.val) :
    Eat (spikeAt i j k) i.val j.val m = 0 := by
  unfold Eat spikeAt
  rw [dif_pos ⟨i.isLt, j.isLt, hm⟩,
    if_neg (fun hcon => hne (congrArg Fin.val hcon.2.2))]

/-! ### C1: the leapfrog update formula -/

/-- C1: for every run configuration and every step index `t` with
`0 ≤ t < time_steps` while the run is still running, the new field
produced by that step equals
`clamp(damping * (2*current - previous + dt^2 * (c^2 * laplacian(current)
- alpha * c^2 * (R ⊙ current) + c^2 * beta * cos(omega * dt * t))),
-1e5, 1e5)` elementwise, with the damping multiplication applied before
the clamp and the curvature and source terms applied to every cell
including boundary cells (the formula holds at every index `(i, j, k)`).
In the exact-rational model the run is running at every `t <
time_steps`, since non-finite values cannot arise. -/
theorem c1_step_update_formula (M : RNGModel) (sinFn cosFn : ℚ → ℚ)
    (p : CoupledParams3D) (st : M.St) (t : ℕ) (_ht : t < p.time_steps)
    (i : Fin p.nx) (j : Fin p.ny) (k : Fin p.nz) :
    (simStateAfter M sinFn cosFn p st (t + 1)).E i j k
      = npClip (p.damping
          * (2 * (simStateAfter M sinFn cosFn p st t).E i j k
            - (simStateAfter M sinFn cosFn p st t).Eprev i j k
            + p.dt ^ 2
              * (p.c ^ 2
                  * laplacian_3d (simStateAfter M sinFn cosFn p st t).E
                      p.dx p.dy p.dz i j k
                - p.alpha * p.c ^ 2
                  * (define_ricci_3d p i j k
                    * (simStateAfter M sinFn cosFn p st t).E i j k)
                + p.c ^ 2 * (p.beta * cosFn (p.omega * p.dt * (t : ℚ))))))
          (-100000) 100000 := by
  rw [simStateAfter_succ]
  rfl

/-- Witness for C1 at the concrete configuration `pTiny`, step 0. -/
theorem c1_witness :
    (0 : ℕ) < pTiny.time_steps ∧
    (simStateAfter (unitRNG 1) (constFn 0) (constFn 1) pTiny () 1).E c0x c0y c0z
      = npClip (pTiny.damping
          * (2 * (simStateAfter (unitRNG 1) (constFn 0) (constFn 1) pTiny () 0).E c0x c0y c0z
            - (simStateAfter (unitRNG 1) (constFn 0) (constFn 1) pTiny () 0).Eprev c0x c0y c0z
            + pTiny.dt ^ 2
              * (pTiny.c ^ 2
                  * laplacian_3d
                      (simStateAfter (unitRNG 1) (constFn 0) (constFn 1) pTiny () 0).E
                      pTiny.dx pTiny.dy pTiny.dz c0x c0y c0z
                - pTiny.alpha * pTiny.c ^ 2
                  * (define_ricci_3d pTiny c0x c0y c0z
                    * (simStateAfter (unitRNG 1) (constFn 0) (constFn 1) pTiny () 0).E c0x c0y c0z)
                + pTiny.c ^ 2
                  * (pTiny.beta * constFn 1 (pTiny.omega * pTiny.dt * ((0 : ℕ) : ℚ))))))
          (-100000) 100000 :=
  ⟨by decide,
   c1_step_update_formula (unitRNG 1) (constFn 0) (constFn 1) pTiny () 0
     (by decide) c0x c0y c0z⟩

/-! ### C2: per-axis behaviour of the discrete Laplacian -/

/-- Counterexample to C2 as stated: cell `(0, 1, 1)` of a 3×3×3 grid is
a boundary cell (its x-index is 0), yet `laplacian_3d` returns a nonzero
value there (namely `-4` for the spike field `Ecex` with unit cell
sizes), because the y- and z-direction slice updates
(`d2E[:, 1:-1, :]`, `d2E[:, :, 1:-1]`) also write to x-boundary rows. -/
theorem c2_counterexample :
    (⟨0, by omega⟩ : Fin 3).val = 0
    ∧ laplacian_3d Ecex 1 1 1 ⟨0, by omega⟩ ⟨1, by omega⟩ ⟨1, by omega⟩ ≠ 0 :=
  ⟨rfl, by norm_num [laplacian_3d, Ecex]⟩

/-- C2 amended: at *every* cell — boundary, interior or mixed — the
operator returns the sum, over exactly those axes on which the cell's
index is strictly interior, of the second-order central differences
`(f[+1] - 2f + f[-1]) / size²`, with zero contribution along axes on
which the index is on the boundary (conjunct 1, unconditional).  In
particular every strictly interior cell receives the sum of all three
differences (conjunct 2), a cell on the boundary of *every* axis
receives exactly zero for every field (conjunct 3), and — the converse
— for strictly positive cell sizes, any cell that is strictly interior
along at least one axis receives a nonzero value for some field
(conjunct 4): the cells guaranteed zero are exactly the all-axes
boundary cells, not every boundary cell as the claim stated. -/
theorem c2_laplacian_per_axis {nx ny nz : ℕ} (E : Field nx ny nz)
    (dx dy dz : ℚ) (i : Fin nx) (j : Fin ny) (k : Fin nz) :
    (laplacian_3d E dx dy dz i j k
      = (if 0 < i.val ∧ i.val + 1 < nx then
          (Eat E (i.val + 1) j.val k.val - 2 * Eat E i.val j.val k.val
            + Eat E (i.val - 1) j.val k.val) / dx ^ 2
        else 0)
      + (if 0 < j.val ∧ j.val + 1 < ny then
          (Eat E i.val (j.val + 1) k.val - 2 * Eat E i.val j.val k.val
            + Eat E i.val (j.val - 1) k.val) / dy ^ 2
        else 0)
      + (if 0 < k.val ∧ k.val + 1 < nz then
          (Eat E i.val j.val (k.val + 1) - 2 * Eat E i.val j.val k.val
            + Eat E i.val j.val (k.val - 1)) / dz ^ 2
        else 0))
    ∧ ((0 < i.val ∧ i.val + 1 < nx) → (0 < j.val ∧ j.val + 1 < ny) →
      (0 < k.val ∧ k.val + 1 < nz) →
      laplacian_3d E dx dy dz i j k
        = (Eat E (i.val + 1) j.val k.val - 2 * Eat E i.val j.val k.val
            + Eat E (i.val - 1) j.val k.val) / dx ^ 2
        + (Eat E i.val (j.val + 1) k.val - 2 * Eat E i.val j.val k.val
            + Eat E i.val (j.val - 1) k.val) / dy ^ 2
        + (Eat E i.val j.val (k.val + 1) - 2 * Eat E i.val j.val k.val
            + Eat E i.val j.val (k.val - 1)) / dz ^ 2)
    ∧ (((i.val = 0 ∨ i.val + 1 = nx) ∧ (j.val = 0 ∨ j.val + 1 = ny)
        ∧ (k.val = 0 ∨ k.val + 1 = nz)) →
      laplacian_3d E dx dy dz i j k = 0)
    ∧ (0 < dx → 0 < dy → 0 < dz →
      ¬((i.val = 0 ∨ i.val + 1 = nx) ∧ (j.val = 0 ∨ j.val + 1 = ny)
        ∧ (k.val = 0 ∨ k.val + 1 = nz)) →
      ∃ E' : Field nx ny nz, laplacian_3d E' dx dy dz i j k ≠ 0) := by
  refine ⟨laplacian_char E dx dy dz i j k, ?_, ?_, ?_⟩
  · intro hi hj hk
    rw [laplacian_char E dx dy dz i j k, if_pos hi, if_pos hj, if_pos hk]
  · rintro ⟨hbi, hbj, hbk⟩
    have hni : ¬(0 < i.val ∧ i.val + 1 < nx) := by omega
    have hnj : ¬(0 < j.val ∧ j.val + 1 < ny) := by omega
    have hnk : ¬(0 < k.val ∧ k.val + 1 < nz) := by omega
    rw [laplacian_char E dx dy dz i j k, if_neg hni, if_neg hnj, if_neg hnk]
    norm_num
  · intro hdx hdy hdz hnall
    refine ⟨spikeAt i j k, ?_⟩
    rw [laplacian_char (spikeAt i j k) dx dy dz i j k]
    have hcenter := Eat_spike_center i j k
    have hx : (if 0 < i.val ∧ i.val + 1 < nx then
          (Eat (spikeAt i j k) (i.val + 1) j.val k.val
            - 2 * Eat (spikeAt i j k) i.val j.val k.val
            + Eat (spikeAt i j k) (i.val - 1) j.val k.val) / dx ^ 2
        else 0) ≤ 0
        ∧ ((0 < i.val ∧ i.val + 1 < nx) →
          (if 0 < i.val ∧ i.val + 1 < nx then
            (Eat (spikeAt i j k) (i.val + 1) j.val k.val
              - 2 * Eat (spikeAt i j k) i.val j.val k.val
              + Eat (spikeAt i j k) (i.val - 1) j.val k.val) / dx ^ 2
          else 0) < 0) := by
      by_cases h : 0 < i.val ∧ i.val + 1 < nx
      · rw [if_pos h, Eat_spike_off_x i j k (i.val + 1) h.2 (by omega),
          Eat_spike_off_x i j k (i.val - 1)
            (Nat.lt_of_le_of_lt (Nat.sub_le _ _) i.isLt) (by omega), hcenter]
        have hlt : (0 - 2 * 1 + 0 : ℚ) / dx ^ 2 < 0 :=
          div_neg_of_neg_of_pos (by norm_num) (by positivity)
        exact ⟨le_of_lt hlt, fun _ => hlt⟩
      · rw [if_neg h]
        exact ⟨le_refl 0, fun hc => absurd hc h⟩
    have hy : (if 0 < j.val ∧ j.val + 1 < ny then
          (Eat (spikeAt i j k) i.val (j.val + 1) k.val
            - 2 * Eat (spikeAt i j k) i.val j.val k.val
            + Eat (spikeAt i j k) i.val (j.val - 1) k.val) / dy ^ 2
        else 0) ≤ 0
        ∧ ((0 < j.val ∧ j.val + 1 < ny) →
          (if 0 < j.val ∧ j.val + 1 < ny then
            (Eat (spikeAt i j k) i.val (j.val + 1) k.val
              - 2 * Eat (spikeAt i j k) i.val j.val k.val
              + Eat (spikeAt i j k) i.val (j.val - 1) k.val) / dy ^ 2
          else 0) < 0) := by
      by_cases h : 0 < j.val ∧ j.val + 1 < ny
      · rw [if_pos h, Eat_spike_off_y i j k (j.val + 1) h.2 (by omega),
          Eat_spike_off_y i j k (j.val - 1)
            (Nat.lt_of_le_of_lt (Nat.sub_le _ _) j.isLt) (by omega), hcenter]
        have hlt : (0 - 2 * 1 + 0 : ℚ) / dy ^ 2 < 0 :=
          div_neg_of_neg_of_pos (by norm_num) (by positivity)
        exact ⟨le_of_lt hlt, fun _ => hlt⟩
      · rw [if_neg h]
        exact ⟨le_refl 0, fun hc => absurd hc h⟩
    have hz : (if 0 < k.val ∧ k.val + 1 < nz then
          (Eat (spikeAt i j k) i.val j.val (k.val + 1)
            - 2 * Eat (spikeAt i j k) i.val j.val k.val
            + Eat (spikeAt i j k) i.val j.val (k.val - 1)) / dz ^ 2
        else 0) ≤ 0
        ∧ ((0 < k.val ∧ k.val + 1 < nz) →
          (if 0 < k.val ∧ k.val + 1 < nz then
            (Eat (spikeAt i j k) i.val j.val (k.val + 1)
              - 2 * Eat (spikeAt i j k) i.val j.val k.val
              + Eat (spikeAt i j k) i.val j.val (k.val - 1)) / dz ^ 2
          else 0) < 0) := by
      by_cases h : 0 < k.val ∧ k.val + 1 < nz
      · rw [if_pos h, Eat_spike_off_z i j k (k.val + 1) h.2 (by omega),
          Eat_spike_off_z i j k (k.val - 1)
            (Nat.lt_of_le_of_lt (Nat.sub_le _ _) k.isLt) (by omega), hcenter]
        have hlt : (0 - 2 * 1 + 0 : ℚ) / dz ^ 2 < 0 :=
          div_neg_of_neg_of_pos (by norm_num) (by positivity)
        exact ⟨le_of_lt hlt, fun _ => hlt⟩
      · rw [if_neg h]
        exact ⟨le_refl 0, fun hc => absurd hc h⟩
    have hi' := i.isLt
    have hj' := j.isLt
    have hk' := k.isLt
    have hone : (0 < i.val ∧ i.val + 1 < nx) ∨ (0 < j.val ∧ j.val + 1 < ny)
        ∨ (0 < k.val ∧ k.val + 1 < nz) := by omega
    rcases hone with hc | hc | hc
    · exact ne_of_lt (by linarith [hx.2 hc, hy.1, hz.1])
    · exact ne_of_lt (by linarith [hx.1, hy.2 hc, hz.1])
    · exact ne_of_lt (by linarith [hx.1, hy.1, hz.2 hc])

/-- Witness for the amended C2 at the mixed cell `(0, 1, 1)` of a
3×3×3 grid (x-boundary, y/z-interior) with unit cell sizes: the
unconditional per-axis formula instantiated there, plus the existence
of a field with a nonzero value at that boundary cell. -/
theorem c2_witness :
    ((0 : ℚ) < 1
      ∧ ¬(((0 : ℕ) = 0 ∨ 0 + 1 = 3) ∧ ((1 : ℕ) = 0 ∨ 1 + 1 = 3)
        ∧ ((1 : ℕ) = 0 ∨ 1 + 1 = 3)))
    ∧ (laplacian_3d Ecex 1 1 1 ⟨0, by omega⟩ ⟨1, by omega⟩ ⟨1, by omega⟩
        = (if (0 : ℕ) < 0 ∧ 0 + 1 < 3 then
            (Eat Ecex 1 1 1 - 2 * Eat Ecex 0 1 1 + Eat Ecex 0 1 1)
              / (1 : ℚ) ^ 2
          else 0)
        + (if (0 : ℕ) < 1 ∧ 1 + 1 < 3 then
            (Eat Ecex 0 2 1 - 2 * Eat Ecex 0 1 1 + Eat Ecex 0 0 1)
              / (1 : ℚ) ^ 2
          else 0)
        + (if (0 : ℕ) < 1 ∧ 1 + 1 < 3 then
            (Eat Ecex 0 1 2 - 2 * Eat Ecex 0 1 1 + Eat Ecex 0 1 0)
              / (1 : ℚ) ^ 2
          else 0))
    ∧ ∃ E' : Field 3 3 3,
        laplacian_3d E' 1 1 1 ⟨0, by omega⟩ ⟨1, by omega⟩ ⟨1, by omega⟩ ≠ 0 :=
  ⟨⟨by norm_num, by decide⟩,
   (c2_laplacian_per_axis Ecex 1 1 1 ⟨0, by omega⟩ ⟨1, by omega⟩
     ⟨1, by omega⟩).1,
   (c2_laplacian_per_axis Ecex 1 1 1 ⟨0, by omega⟩ ⟨1, by omega⟩
     ⟨1, by omega⟩).2.2.2 (by norm_num) (by norm_num) (by norm_num)
     (by decide)⟩

/-! ### C9: symmetry and positivity of the curvature field -/

/-- Reversing an index of the symmetric `linspace` grid preserves the
squared coordinate (for one sample the point is fixed; otherwise the
coordinates are antisymmetric under reversal). -/
theorem sq_linspace_symm (n : ℕ) (i : Fin n) :
    linspace (-(n : ℚ) / 2) ((n : ℚ) / 2) n i.rev ^ 2
      = linspace (-(n : ℚ) / 2) ((n : ℚ) / 2) n i ^ 2 := by
  by_cases h1 : n = 1
  · subst h1
    rw [Subsingleton.elim i.rev i]
  · have hn : 0 < n := i.pos
    have hn2 : 2 ≤ n := by omega
    have hgt : (1 : ℚ) < (n : ℚ) := by exact_mod_cast hn2
    have hne : ((n : ℚ) - 1) ≠ 0 := sub_ne_zero.2 (by linarith)
    have hrev : ((i.rev.val : ℕ) : ℚ) = (n : ℚ) - 1 - (i.val : ℚ) := by
      rw [Fin.val_rev]
      have hle : i.val + 1 ≤ n := i.isLt
      rw [Nat.cast_sub hle]
      push_cast
      ring
    unfold linspace
    rw [if_neg h1, if_neg h1, hrev]
    have hneg : -(n : ℚ) / 2 + ((n : ℚ) - 1 - (i.val : ℚ))
          * ((n : ℚ) / 2 - -(n : ℚ) / 2) / ((n : ℚ) - 1)
        = -(-(n : ℚ) / 2 + (i.val : ℚ)
          * ((n : ℚ) / 2 - -(n : ℚ) / 2) / ((n : ℚ) - 1)) := by
      field_simp
      ring
    rw [hneg, neg_sq]

/-- C9 amended: the curvature field is symmetric under reversing the
index along any axis (it depends only on the squared distance from the
grid center) for every mass; it is strictly positive at every cell
*provided the mass parameter is strictly positive* — the claim as
stated quantifies over every mass, and fails for `mass ≤ 0`. -/
theorem c9_ricci_symmetry_positivity (p : CoupledParams3D)
    (i : Fin p.nx) (j : Fin p.ny) (k : Fin p.nz) :
    define_ricci_3d p i.rev j k = define_ricci_3d p i j k
    ∧ define_ricci_3d p i j.rev k = define_ricci_3d p i j k
    ∧ define_ricci_3d p i j k.rev = define_ricci_3d p i j k
    ∧ (0 < p.mass → 0 < define_ricci_3d p i j k) := by
  refine ⟨?_, ?_, ?_, ?_⟩
  · unfold define_ricci_3d xcoord
    rw [sq_linspace_symm]
  · unfold define_ricci_3d ycoord
    rw [sq_linspace_symm]
  · unfold define_ricci_3d zcoord
    rw [sq_linspace_symm]
  · intro hm
    unfold define_ricci_3d
    have h1 : (0 : ℚ)
        < xcoord p i ^ 2 + ycoord p j ^ 2 + zcoord p k ^ 2 + 1000 := by
      positivity
    exact mul_pos (div_pos hm h1) (by norm_num)

/-- Counterexample to C9 as stated: with `mass = 0` (a legal value of
the mass parameter) the curvature field is identically zero, hence not
strictly positive at any cell. -/
theorem c9_counterexample :
    ¬(0 < define_ricci_3d pMass0 c0x c0y c0z) := by
  have h : define_ricci_3d pMass0 c0x c0y c0z = 0 := by
    simp [define_ricci_3d, pMass0, pTiny]
  rw [h]
  norm_num

/-- Witness for the amended C9 with a strictly positive mass. -/
theorem c9_witness :
    0 < pTiny.mass ∧ 0 < define_ricci_3d pTiny c0x c0y c0z :=
  ⟨by norm_num [pTiny],
   (c9_ricci_symmetry_positivity pTiny c0x c0y c0z).2.2.2 (by norm_num [pTiny])⟩

/-! ### C3: behaviour of the divergence early-stop -/

/-- C3: for every run and every step index `t`, if the candidate field
after damping and clamping has a non-finite entry, the run stops
immediately at step `t` without updating the field state and without
writing that step's metrics: the final state equals the state before
step `t` with only the `stopped` flag set (so the returned final field
is the previous valid current field), and both metric sequences keep
their default zero entries from index `t` onward.  `stepFn` stands for
the candidate computation of loop lines 225-232 (whose exact
finite-value content is `stepField`); it is universally quantified,
covering every run. -/
theorem c3_divergence_early_stop {nx ny nz : ℕ}
    (stepFn : ℕ → FField nx ny nz → FField nx ny nz → FField nx ny nz)
    (T : ℕ) (E0 : FField nx ny nz) (t : ℕ) (_ht : t < T)
    (hrun : (fsimStateAfter stepFn T E0 t).stopped = false)
    (hbad : fAllFinite (fvClipField (stepFn t (fsimStateAfter stepFn T E0 t).E
        (fsimStateAfter stepFn T E0 t).Eprev)) = false) :
    runLoopF stepFn T E0 = { fsimStateAfter stepFn T E0 t with stopped := true }
    ∧ (∀ u, t ≤ u →
        (runLoopF stepFn T E0).max_amplitudes.getD u (.finite 0) = .finite 0)
    ∧ (∀ u, t ≤ u →
        (runLoopF stepFn T E0).energy_over_time.getD u (.finite 0)
          = .finite 0) := by
  have hstep : fstepSim stepFn (fsimStateAfter stepFn T E0 t) t
      = { fsimStateAfter stepFn T E0 t with stopped := true } := by
    simp [fstepSim, hrun, hbad]
  have hsucc : fsimStateAfter stepFn T E0 (t + 1)
      = { fsimStateAfter stepFn T E0 t with stopped := true } := by
    rw [fsimStateAfter_succ, hstep]
  have hstopped : (fsimStateAfter stepFn T E0 (t + 1)).stopped = true := by
    rw [hsucc]
  have hmain : runLoopF stepFn T E0
      = { fsimStateAfter stepFn T E0 t with stopped := true } := by
    calc runLoopF stepFn T E0
        = fsimStateAfter stepFn T E0 ((t + 1) + (T - (t + 1))) := by
          unfold runLoopF
          congr 1
          omega
      _ = fsimStateAfter stepFn T E0 (t + 1) :=
          fsimStateAfter_frozen stepFn T E0 (t + 1) hstopped _
      _ = _ := hsucc
  refine ⟨hmain, ?_, ?_⟩
  · intro u hu
    rw [hmain]
    exact (untouched_after stepFn T E0 t).1 u hu
  · intro u hu
    rw [hmain]
    exact (untouched_after stepFn T E0 t).2 u hu

/-- Witness for C3: a one-step run whose step computation produces NaN
stops immediately with the initial state preserved. -/
theorem c3_witness :
    (0 : ℕ) < 1 ∧
    runLoopF nanStep 1 fzero
      = { fsimStateAfter nanStep 1 fzero 0 with stopped := true } :=
  ⟨by decide,
   (c3_divergence_early_stop nanStep 1 fzero 0 (by decide) rfl rfl).1⟩

/-! ### C10: the clamp runs before the finiteness check -/

/-- C10: the divergence early-stop can be triggered only by NaN, never
by infinities.  The elementwise clamp (applied by the loop before the
finiteness check — see `fstepSim`) maps `+∞` to the upper bound and
`-∞` to the lower bound while leaving NaN in place, so every non-NaN
scalar is finite after clamping; consequently a run whose candidate
computation never produces NaN is never stopped early, no matter how
many infinities it produces. -/
theorem c10_clamp_before_finiteness_check :
    (∀ x : FVal, x ≠ .nan → (fvClip x (-100000) 100000).isFinite = true)
    ∧ fvClip .posInf (-100000) 100000 = .finite 100000
    ∧ fvClip .negInf (-100000) 100000 = .finite (-100000)
    ∧ fvClip .nan (-100000) 100000 = .nan
    ∧ ∀ (nx ny nz : ℕ)
        (stepFn : ℕ → FField nx ny nz → FField nx ny nz → FField nx ny nz)
        (T : ℕ) (E0 : FField nx ny nz),
        (∀ t E Ep i j k, stepFn t E Ep i j k ≠ .nan) →
        (runLoopF stepFn T E0).stopped = false := by
  refine ⟨fun x hx => fvClip_isFinite_of_ne_nan x _ _ hx, rfl, ?_, rfl, ?_⟩
  · show FVal.finite (min (-100000) 100000) = FVal.finite (-100000)
    norm_num
  · intro nx ny nz stepFn T E0 hno
    suffices h : ∀ t, (fsimStateAfter stepFn T E0 t).stopped = false from h T
    intro t
    induction t with
    | zero => rfl
    | succ t ih =>
      rw [fsimStateAfter_succ]
      have hfin : fAllFinite (fvClipField
          (stepFn t (fsimStateAfter stepFn T E0 t).E
            (fsimStateAfter stepFn T E0 t).Eprev)) = true := by
        refine (fAllFinite_iff _).2 fun i j k => ?_
        exact fvClip_isFinite_of_ne_nan _ _ _ (hno t _ _ i j k)
      simp [fstepSim, ih, hfin]

/-- Witness for C10: an all-infinity candidate is clamped to a finite
field and the run is not stopped. -/
theorem c10_witness :
    (FVal.posInf ≠ FVal.nan
      ∧ (fvClip .posInf (-100000) 100000).isFinite = true)
    ∧ (runLoopF infStep 1 fzero).stopped = false :=
  ⟨⟨by decide,
    c10_clamp_before_finiteness_check.1 .posInf (by decide)⟩,
   c10_clamp_before_finiteness_check.2.2.2.2 1 1 1 infStep 1 fzero
     (fun _ _ _ _ _ _ h => FVal.noConfusion h)⟩

/-! ### C5: absence of configuration validation -/

/-- The metric arrays' lengths are invariant under the integration loop
(each step writes in place via `List.set`). -/
theorem metrics_length_foldl (p : CoupledParams3D) (cosFn : ℚ → ℚ)
    (R : Field p.nx p.ny p.nz) :
    ∀ (l : List ℕ) (s : SimState p.nx p.ny p.nz),
      (l.foldl (stepSim p cosFn R) s).max_amplitudes.length
          = s.max_amplitudes.length
      ∧ (l.foldl (stepSim p cosFn R) s).energy_over_time.length
          = s.energy_over_time.length := by
  intro l
  induction l with
  | nil => intro s; exact ⟨rfl, rfl⟩
  | cons a l ih =>
    intro s
    rw [List.foldl_cons]
    refine ⟨?_, ?_⟩
    · rw [(ih _).1]
      exact List.length_set _ _ _
    · rw [(ih _).2]
      exact List.length_set _ _ _

/-- C5 amended: the program performs no configuration validation.  For
*every* configuration — including non-positive cell sizes, non-positive
time step, or degenerate grid dimensions — the run proceeds normally
and returns full-length metric arrays; no configuration error is
signalled before (or after) array allocation.  (The original claim,
that invalid configurations fail fast before any allocation with a
distinct configuration error, is refuted by `c5_counterexample`.) -/
theorem c5_no_validation (M : RNGModel) (sinFn cosFn : ℚ → ℚ)
    (p : CoupledParams3D) (st : M.St) :
    (run_single_sim_realtime M sinFn cosFn p st).max_amplitudes.length
        = p.time_steps
    ∧ (run_single_sim_realtime M sinFn cosFn p st).energy_over_time.length
        = p.time_steps := by
  unfold run_single_sim_realtime simStateAfter
  constructor
  · rw [(metrics_length_foldl p cosFn (define_ricci_3d p)
      (List.range p.time_steps) _).1]
    exact List.length_replicate _ _
  · rw [(metrics_length_foldl p cosFn (define_ricci_3d p)
      (List.range p.time_steps) _).2]
    exact List.length_replicate _ _

/-- Counterexample to C5 as stated: `dt = 0` is a non-positive time
step, yet the constructor accepts it and the run executes its
integration step normally — the final field holds the damped initial
value `0.98 * 5e-11 = 49e-12`, produced by a completed update, and no
configuration error is signalled at any point (the model of the code is
total precisely because the code contains no validation). -/
theorem c5_counterexample :
    pInvalid.dt ≤ 0
    ∧ (run_single_sim_realtime (unitRNG 1) (constFn 0) (constFn 1)
        pInvalid ()).E c0x c0y c0z = 49 / 1000000000000 := by
  constructor
  · norm_num [pInvalid, pTiny]
  · simp only [run_single_sim_realtime, simStateAfter, stepSim, stepField,
      laplacian_3d, initialize_field_3d, randN, flatIdx, linspace,
      define_ricci_3d, xcoord, ycoord, zcoord, unitRNG, constFn,
      pInvalid, pTiny, c0x, c0y, c0z, List.range_succ, List.range_zero,
      List.nil_append, List.foldl_cons, List.foldl_nil]
    norm_num [npClip, min_def, max_def]

/-! ### C6 and C7: initial-field bounds and initializer determinism -/

/-- In random-initialization mode every initial cell is bounded by
`5e-11` in absolute value (draws lie in `[0, 1]`, so
`1e-10 * (draw - 0.5)` lies in `1e-10 * [-0.5, 0.5]`). -/
theorem init_random_bound (M : RNGModel) (sinFn : ℚ → ℚ)
    (p : CoupledParams3D) (st : M.St) (hrand : p.random_init = true)
    (hr1 : ∀ s, 0 ≤ (M.rand s).1 ∧ (M.rand s).1 ≤ 1) :
    ∀ (i : Fin p.nx) (j : Fin p.ny) (k : Fin p.nz),
      |(initialize_field_3d M sinFn p st).1 i j k| ≤ 1 / 20000000000 := by
  intro i j k
  unfold initialize_field_3d
  rw [if_pos hrand]
  set v := (randN M (p.nx * p.ny * p.nz) (M.seed 42)).1.getD
    (flatIdx p.ny p.nz i.val j.val k.val) 0 with hv
  have hb : 0 ≤ v ∧ v ≤ 1 :=
    getD_bounds _ (fun w hw => randN_mem_bounds M hr1 _ _ w hw) _
  show |(1 / 10000000000 : ℚ) * (v - 1 / 2)| ≤ 1 / 20000000000
  rw [abs_mul, abs_of_pos (by norm_num : (0 : ℚ) < 1 / 10000000000)]
  have h2 : |v - 1 / 2| ≤ 1 / 2 :=
    abs_le.2 ⟨by linarith [hb.1], by linarith [hb.2]⟩
  calc (1 / 10000000000 : ℚ) * |v - 1 / 2|
      ≤ (1 / 10000000000) * (1 / 2) := by
        exact mul_le_mul_of_nonneg_left h2 (by norm_num)
    _ = 1 / 20000000000 := by norm_num

/-- The initial field is bounded by `1e-10` in absolute value in either
initialization mode (given that the sine stand-in is bounded by 1). -/
theorem init_bound (M : RNGModel) (sinFn : ℚ → ℚ) (p : CoupledParams3D)
    (st : M.St) (hr1 : ∀ s, 0 ≤ (M.rand s).1 ∧ (M.rand s).1 ≤ 1)
    (hsin : ∀ x, |sinFn x| ≤ 1) :
    ∀ (i : Fin p.nx) (j : Fin p.ny) (k : Fin p.nz),
      |(initialize_field_3d M sinFn p st).1 i j k| ≤ 1 / 10000000000 := by
  intro i j k
  cases hrb : p.random_init with
  | true =>
    exact le_trans (init_random_bound M sinFn p st hrb hr1 i j k) (by norm_num)
  | false =>
    unfold initialize_field_3d
    rw [if_neg (by simp [hrb])]
    show |(1 / 10000000000 : ℚ) * sinFn (linspace 0 npPi p.nx i)
        * sinFn (linspace 0 npPi p.ny j) * sinFn (linspace 0 npPi p.nz k)|
      ≤ 1 / 10000000000
    rw [abs_mul, abs_mul, abs_mul,
      abs_of_pos (by norm_num : (0 : ℚ) < 1 / 10000000000)]
    calc (1 / 10000000000 : ℚ) * |sinFn (linspace 0 npPi p.nx i)|
          * |sinFn (linspace 0 npPi p.ny j)| * |sinFn (linspace 0 npPi p.nz k)|
        ≤ (1 / 10000000000) * 1 * 1 * 1 := by
          gcongr <;> exact hsin _
      _ = 1 / 10000000000 := by norm_num

/-- C6: after every completed step the retained current field satisfies
`max(|current|) ≤ 1e5`, because each candidate is clamped elementwise to
`[-1e5, 1e5]` before it can become the current field; the bound holds
for the state after any number of steps — in particular for the field
returned at run end, whether the run completed all steps or would have
stopped early (any prefix state's field satisfies it). -/
theorem c6_amplitude_clamp (M : RNGModel) (sinFn cosFn : ℚ → ℚ)
    (p : CoupledParams3D) (st : M.St)
    (hr1 : ∀ s, 0 ≤ (M.rand s).1 ∧ (M.rand s).1 ≤ 1)
    (hsin : ∀ x, |sinFn x| ≤ 1) :
    (∀ (R : Field p.nx p.ny p.nz) (t : ℕ) (E Ep : Field p.nx p.ny p.nz)
        (i : Fin p.nx) (j : Fin p.ny) (k : Fin p.nz),
        |stepField p cosFn R t E Ep i j k| ≤ 100000)
    ∧ (∀ (t : ℕ) (i : Fin p.nx) (j : Fin p.ny) (k : Fin p.nz),
        |(simStateAfter M sinFn cosFn p st t).E i j k| ≤ 100000)
    ∧ maxAbs (run_single_sim_realtime M sinFn cosFn p st).E ≤ 100000 := by
  have hstep : ∀ (R : Field p.nx p.ny p.nz) (t : ℕ)
      (E Ep : Field p.nx p.ny p.nz) (i : Fin p.nx) (j : Fin p.ny)
      (k : Fin p.nz), |stepField p cosFn R t E Ep i j k| ≤ 100000 := by
    intro R t E Ep i j k
    exact abs_npClip_le _
  have hall : ∀ (t : ℕ) (i : Fin p.nx) (j : Fin p.ny) (k : Fin p.nz),
      |(simStateAfter M sinFn cosFn p st t).E i j k| ≤ 100000 := by
    intro t
    induction t with
    | zero =>
      intro i j k
      exact le_trans (init_bound M sinFn p st hr1 hsin i j k) (by norm_num)
    | succ t ih =>
      intro i j k
      rw [simStateAfter_succ]
      exact hstep _ _ _ _ i j k
  exact ⟨hstep, hall, maxAbs_le _ (hall p.time_steps)⟩

/-- Witness for C6 at the concrete one-step configuration. -/
theorem c6_witness :
    (0 : ℚ) ≤ ((unitRNG 1).rand ()).1 ∧
    maxAbs (run_single_sim_realtime (unitRNG 1) (constFn 0) (constFn 1)
      pTiny ()).E ≤ 100000 :=
  ⟨by simp [unitRNG],
   (c6_amplitude_clamp (unitRNG 1) (constFn 0) (constFn 1) pTiny ()
     (fun s => by simp only [unitRNG]; norm_num)
     (fun x => by simp only [constFn]; norm_num)).2.2⟩

/-- C7: in random-initialization mode the initializer reseeds the fixed
seed 42 before drawing, so the produced initial field does not depend on
the incoming generator state (the sweep position) nor on `alpha` and
`beta`; the returned `(current, previous)` fields are equal, and every
value lies in `1e-10 * [-0.5, 0.5]`. -/
theorem c7_init_deterministic (M : RNGModel) (sinFn : ℚ → ℚ)
    (p : CoupledParams3D) (a b : ℚ) (st st' : M.St)
    (hrand : p.random_init = true)
    (hr : ∀ s, 0 ≤ (M.rand s).1 ∧ (M.rand s).1 < 1) :
    (initialize_field_3d M sinFn { p with alpha := a, beta := b } st').1
        = (initialize_field_3d M sinFn p st).1
    ∧ (initialize_field_3d M sinFn p st).2.1
        = (initialize_field_3d M sinFn p st).1
    ∧ ∀ (i : Fin p.nx) (j : Fin p.ny) (k : Fin p.nz),
        |(initialize_field_3d M sinFn p st).1 i j k| ≤ 1 / 20000000000 := by
  have hrand' :
      ({ p with alpha := a, beta := b } : CoupledParams3D).random_init
        = true := hrand
  refine ⟨?_, ?_, ?_⟩
  · unfold initialize_field_3d
    rw [if_pos hrand', if_pos hrand]
  · unfold initialize_field_3d
    rw [if_pos hrand]
  · exact init_random_bound M sinFn p st hrand
      (fun s => ⟨(hr s).1, le_of_lt (hr s).2⟩)

/-- Witness for C7: changing `alpha`, `beta` and the incoming generator
state leaves the initial field unchanged. -/
theorem c7_witness :
    pTiny.random_init = true ∧
    (initialize_field_3d (unitRNG (1 / 2)) (constFn 0)
        { pTiny with alpha := 5, beta := 7 } ()).1
      = (initialize_field_3d (unitRNG (1 / 2)) (constFn 0) pTiny ()).1 :=
  ⟨rfl,
   (c7_init_deterministic (unitRNG (1 / 2)) (constFn 0) pTiny 5 7 () () rfl
     (fun s => by simp only [unitRNG]; norm_num)).1⟩

/-! ### C8: zero time steps -/

/-- A run with `time_steps = 0` never enters the loop: the state is the
initial one, with empty metric arrays. -/
theorem run_nil_of_zero_steps (M : RNGModel) (sinFn cosFn : ℚ → ℚ)
    (p : CoupledParams3D) (st : M.St) (hp : p.time_steps = 0) :
    run_single_sim_realtime M sinFn cosFn p st
      = { E := (initialize_field_3d M sinFn p st).1
          Eprev := (initialize_field_3d M sinFn p st).2.1
          max_amplitudes := []
          energy_over_time := [] } := by
  unfold run_single_sim_realtime simStateAfter
  rw [hp]
  rfl

/-- C8: with `time_steps = 0` a run returns the initial field unchanged
(as both time levels) and both metric sequences empty; in the sweep, the
recorded `last_amp` of every entry is `none` (the code's
`max_amps[-1] if len(max_amps) else None` with an empty array). -/
theorem c8_zero_timesteps (M : RNGModel) (sinFn cosFn : ℚ → ℚ)
    (p base : CoupledParams3D) (st : M.St) (alphas betas : List ℚ)
    (thr : ℚ) (hp : p.time_steps = 0) (hbase : base.time_steps = 0) :
    (run_single_sim_realtime M sinFn cosFn p st).E
        = (initialize_field_3d M sinFn p st).1
    ∧ (run_single_sim_realtime M sinFn cosFn p st).Eprev
        = (initialize_field_3d M sinFn p st).2.1
    ∧ (run_single_sim_realtime M sinFn cosFn p st).max_amplitudes = []
    ∧ (run_single_sim_realtime M sinFn cosFn p st).energy_over_time = []
    ∧ ∀ e ∈ (param_sweep_3d M sinFn cosFn alphas betas base thr st).2,
        e.last_amp = none := by
  have hrun := run_nil_of_zero_steps M sinFn cosFn p st hp
  have key : ∀ (l : List (ℚ × ℚ)) (s : Option ℚ × List SweepEntry),
      (∀ e ∈ s.2, e.last_amp = none) →
      ∀ e ∈ (l.foldl (sweepBody M sinFn cosFn base thr st) s).2,
        e.last_amp = none := by
    intro l
    induction l with
    | nil => intro s hs; exact hs
    | cons ab l ih =>
      intro s hs
      rw [List.foldl_cons]
      refine ih _ ?_
      intro e he
      simp only [sweepBody] at he
      rcases List.mem_append.1 he with h | h
      · exact hs e h
      · have hq := run_nil_of_zero_steps M sinFn cosFn
          (mkSimParams base ab.1 ab.2) st hbase
        rw [List.mem_singleton.1 h]
        show (run_single_sim_realtime M sinFn cosFn
          (mkSimParams base ab.1 ab.2) st).max_amplitudes.getLast? = none
        rw [hq]
        rfl
  refine ⟨by rw [hrun], by rw [hrun], by rw [hrun], by rw [hrun], ?_⟩
  exact key _ _ (fun e he => absurd he (List.not_mem_nil e))

/-- Witness for C8 at a concrete zero-step configuration. -/
theorem c8_witness :
    pZeroSteps.time_steps = 0 ∧
    (run_single_sim_realtime (unitRNG 1) (constFn 0) (constFn 1)
      pZeroSteps ()).max_amplitudes = [] :=
  ⟨rfl,
   (c8_zero_timesteps (unitRNG 1) (constFn 0) (constFn 1) pZeroSteps
     pZeroSteps () [1] [1] (1 / 100) rfl rfl).2.2.1⟩

/-! ### C4: the save/skip decision -/

/-- C4: the sweep processes the `(alpha, beta)` pairs in iteration order
by folding the per-pair body over them, and at every sweep position the
body appends exactly one summary entry whose `saved` decision is true
precisely when no run has been saved yet (`last_saved_amp` unset) or the
relative amplitude change `|final_maxE - last_saved_amp| /
max(last_saved_amp, 1e-30)` exceeds the threshold; `last_saved_amp`
becomes `final_maxE` exactly when the run is saved and is unchanged
otherwise.  All definitions involved are pure functions of their inputs,
so for fixed inputs the whole decision sequence is deterministic. -/
theorem c4_save_decision (M : RNGModel) (sinFn cosFn : ℚ → ℚ)
    (base : CoupledParams3D) (thr : ℚ) (st : M.St)
    (alphas betas : List ℚ) (last : Option ℚ) (acc : List SweepEntry)
    (a b : ℚ) :
    param_sweep_3d M sinFn cosFn alphas betas base thr st
      = (pairList alphas betas).foldl
          (sweepBody M sinFn cosFn base thr st) (none, [])
    ∧ ∃ e : SweepEntry,
        sweepBody M sinFn cosFn base thr st (last, acc) (a, b)
          = (if e.saved then some e.final_maxE else last, acc ++ [e])
        ∧ e.alpha = a ∧ e.beta = b
        ∧ e.final_maxE = maxAbs (run_single_sim_realtime M sinFn cosFn
            (mkSimParams base a b) st).E
        ∧ (e.saved = true ↔
            last = none ∨ ∃ l, last = some l
              ∧ |e.final_maxE - l| / max l (1 / 10 ^ 30) > thr) := by
  refine ⟨rfl, ?_⟩
  refine ⟨⟨a, b,
    maxAbs (run_single_sim_realtime M sinFn cosFn (mkSimParams base a b) st).E,
    (run_single_sim_realtime M sinFn cosFn
      (mkSimParams base a b) st).max_amplitudes.getLast?,
    shouldSave last (maxAbs (run_single_sim_realtime M sinFn cosFn
      (mkSimParams base a b) st).E) thr⟩, rfl, rfl, rfl, rfl, ?_⟩
  cases last with
  | none => simp [shouldSave]
  | some l => simp [shouldSave]

end CouplingSim
